import Mathlib

/-!
Verification development for the ASCapitals property-listing and lead-management
backend.  The definitions below are a shallow embedding of the TypeScript
services (`UserVerificationService`, `PropertyService`, `LeadService`,
`AuthService`, `LeadController`) and of the request-validation rules that gate
lead creation.  Stateful Mongoose calls are modelled by explicit state passing
over in-memory lists of records; `findById` becomes a first-match lookup,
`findByIdAndUpdate` / `save` become a keyed map over the store, and thrown
errors become `Except.error` carrying the exact message string thrown by the
code.  Fields of the Mongoose documents that no theorem below mentions
(timestamps, profile attributes, image lists, and so on) are omitted from the
record types; every field that is read or written by the modelled operations is
kept.
-/

namespace ASCap

/-- Three-state approval status shared by verification requests, user records
and property listings (`pending | approved | rejected` in the schemas). -/
inductive VStatus where
  | pending
  | approved
  | rejected
deriving DecidableEq, Repr

/-- Identity record (the `User` model): the fields touched by the verification
workflow and by registration.  The schema lowercases `email` on save. -/
structure UserRec where
  id : String
  email : String
  verificationStatus : VStatus
  isVerified : Bool
  verifiedBy : Option String
  verifiedAt : Option Nat
  rejectionReason : Option String
deriving DecidableEq, Repr

/-- Verification request record (the `UserVerificationRequest` model). -/
structure VRequest where
  id : String
  userId : String
  status : VStatus
  reviewedBy : Option String
  reviewedAt : Option Nat
  reviewNotes : Option String
  rejectionReason : Option String
deriving DecidableEq, Repr

/-- The durable store seen by the verification workflow: user records plus
verification-request records. -/
structure Db where
  users : List UserRec
  requests : List VRequest
deriving DecidableEq, Repr

/-- Whitespace trimming on both ends, modelling the JavaScript
`String.prototype.trim` used by the validators and schemas. -/
def strTrim (s : String) : String :=
  String.mk (((s.data.dropWhile Char.isWhitespace).reverse.dropWhile Char.isWhitespace).reverse)

/-- Character-wise lowercasing, modelling the JavaScript
`String.prototype.toLowerCase` used for emails and the case-insensitive
regex matches. -/
def strToLower (s : String) : String := String.mk (s.data.map Char.toLower)

/-- Generic first-match lookup by key, modelling `Model.findById`. -/
def findBy (key : α → String) (l : List α) (k : String) : Option α :=
  l.find? (fun x => key x == k)

/-- Generic keyed patch, modelling `Model.findByIdAndUpdate(k, patch)` and
`doc.save()`: every record whose key matches is replaced by its patched
version, all other records are untouched; a missing key is a no-op. -/
def updateBy (key : α → String) (l : List α) (k : String) (f : α → α) : List α :=
  l.map (fun x => if key x == k then f x else x)

/-- Lookup of a verification request, `UserVerificationRequest.findById`. -/
def findReq (reqs : List VRequest) (rid : String) : Option VRequest :=
  findBy VRequest.id reqs rid

/-- Lookup of a user record, `User.findById`. -/
def findUser (users : List UserRec) (uid : String) : Option UserRec :=
  findBy UserRec.id users uid

/-- Message thrown by `approveVerificationRequest` / `rejectVerificationRequest`
when the request id does not resolve (`NotFound` in the spec's taxonomy). -/
def reqNotFoundMsg : String := "Verification request not found"

/-- Message thrown when the request is no longer pending (`AlreadyProcessed`
in the spec's taxonomy). -/
def alreadyProcessedMsg : String := "Request has already been processed"

/-- Patch applied to the request document by the approve transition. -/
def approvePatch (reviewedBy : String) (reviewNotes : Option String) (now : Nat)
    (r : VRequest) : VRequest :=
  { r with
    status := .approved
    reviewedBy := some reviewedBy
    reviewedAt := some now
    reviewNotes := reviewNotes }

/-- Writes performed by `approveVerificationRequest` after its pending check:
the unconditional `findByIdAndUpdate` on the request followed by the
unconditional `findByIdAndUpdate` on the linked user.  In the code these are
two separate awaited store calls, both unconditional on the current stored
status. -/
def approveApplyWrites (db : Db) (request : VRequest) (reviewedBy : String)
    (reviewNotes : Option String) (now : Nat) : Db :=
  { db with
    requests := updateBy VRequest.id db.requests request.id
      (approvePatch reviewedBy reviewNotes now)
    users := updateBy UserRec.id db.users request.userId (fun u =>
      { u with
        verificationStatus := .approved
        isVerified := true
        verifiedBy := some reviewedBy
        verifiedAt := some now }) }

/-- Shallow embedding of `UserVerificationService.approveVerificationRequest`:
fetch the request by id, fail with `NotFound` if absent, fail with
`AlreadyProcessed` if its status is not pending, otherwise apply the request
patch and the linked-user patch and return the updated request.  Error paths
occur before any write, so they return the store unchanged. -/
def approveVerificationRequest (db : Db) (requestId reviewedBy : String)
    (reviewNotes : Option String) (now : Nat) : Except String VRequest × Db :=
  match findReq db.requests requestId with
  | none => (.error reqNotFoundMsg, db)
  | some request =>
    if request.status ≠ .pending then
      (.error alreadyProcessedMsg, db)
    else
      (.ok (approvePatch reviewedBy reviewNotes now request),
        approveApplyWrites db request reviewedBy reviewNotes now)

/-- Patch applied to the request document by the reject transition. -/
def rejectPatch (reviewedBy : String) (rejectionReason : String)
    (reviewNotes : Option String) (now : Nat) (r : VRequest) : VRequest :=
  { r with
    status := .rejected
    reviewedBy := some reviewedBy
    reviewedAt := some now
    rejectionReason := some rejectionReason
    reviewNotes := reviewNotes }

/-- Shallow embedding of `UserVerificationService.rejectVerificationRequest`. -/
def rejectVerificationRequest (db : Db) (requestId reviewedBy : String)
    (rejectionReason : String) (reviewNotes : Option String) (now : Nat) :
    Except String VRequest × Db :=
  match findReq db.requests requestId with
  | none => (.error reqNotFoundMsg, db)
  | some request =>
    if request.status ≠ .pending then
      (.error alreadyProcessedMsg, db)
    else
      (.ok (rejectPatch reviewedBy rejectionReason reviewNotes now request),
        { db with
          requests := updateBy VRequest.id db.requests request.id
            (rejectPatch reviewedBy rejectionReason reviewNotes now)
          users := updateBy UserRec.id db.users request.userId (fun u =>
            { u with
              verificationStatus := .rejected
              isVerified := false
              verifiedBy := some reviewedBy
              verifiedAt := some now
              rejectionReason := some rejectionReason }) })

/-- Error entry collected by the bulk verification operations:
`{ requestId, error }`. -/
structure VBulkErr where
  requestId : String
  error : String
deriving DecidableEq, Repr

/-- Shallow embedding of
`UserVerificationService.bulkApproveVerificationRequests`: the ids are
processed sequentially in input order, each through
`approveVerificationRequest`; a per-item failure is pushed onto the error list
and processing continues with the store as the failed call left it. -/
def bulkApproveVerificationRequests (db : Db) (requestIds : List String)
    (reviewedBy : String) (reviewNotes : Option String) (now : Nat) :
    List VRequest × List VBulkErr × Db :=
  match requestIds with
  | [] => ([], [], db)
  | requestId :: rest =>
    match approveVerificationRequest db requestId reviewedBy reviewNotes now with
    | (.ok r, db1) =>
      let out := bulkApproveVerificationRequests db1 rest reviewedBy reviewNotes now
      (r :: out.1, out.2.1, out.2.2)
    | (.error e, db1) =>
      let out := bulkApproveVerificationRequests db1 rest reviewedBy reviewNotes now
      (out.1, ⟨requestId, e⟩ :: out.2.1, out.2.2)

/-- Message thrown by `AuthService.registerUser` on an email collision
(`DuplicateIdentity` in the spec's taxonomy). -/
def duplicateIdentityMsg : String := "User with this email already exists"

/-- Shallow embedding of the static `User.findByEmail`: a lookup of the
lowercased query email against the stored emails. -/
def userFindByEmail (users : List UserRec) (email : String) : Option UserRec :=
  users.find? (fun u => u.email == strToLower email)

/-- Shallow embedding of `UserVerificationService.createVerificationRequest`:
creates the user with `verificationStatus = pending`, `isVerified = false`
(the schema lowercases the stored email), then creates the linked pending
verification request.  The fresh document ids are passed explicitly. -/
def createVerificationRequest (db : Db) (email : String)
    (newUserId newRequestId : String) : VRequest × Db :=
  let user : UserRec :=
    { id := newUserId
      email := strToLower email
      verificationStatus := .pending
      isVerified := false
      verifiedBy := none
      verifiedAt := none
      rejectionReason := none }
  let request : VRequest :=
    { id := newRequestId
      userId := user.id
      status := .pending
      reviewedBy := none
      reviewedAt := none
      reviewNotes := none
      rejectionReason := none }
  (request, { users := db.users ++ [user], requests := db.requests ++ [request] })

/-- Shallow embedding of `AuthService.registerUser`: duplicate-email check via
`User.findByEmail` first, then `createVerificationRequest`; on success the
returned value is the new user's id. -/
def registerUser (db : Db) (email : String) (newUserId newRequestId : String) :
    Except String String × Db :=
  match userFindByEmail db.users email with
  | some _ => (.error duplicateIdentityMsg, db)
  | none =>
    let out := createVerificationRequest db email newUserId newRequestId
    (.ok out.1.userId, out.2)

/-- Property listing record (the `Property` model): the fields read or written
by `PropertyService`.  Every listing created through the service has its
`agent` set to the (verified-to-exist) creating agent id. -/
structure PropRec where
  id : String
  title : String
  description : String
  location : String
  price : Int
  propertyType : String
  propertyFor : String
  bedrooms : Int
  bathrooms : Int
  status : String
  agent : String
  approvalStatus : VStatus
  approvedBy : Option String
  approvedAt : Option Nat
  rejectionReason : Option String
deriving DecidableEq, Repr

/-- Lookup of a property, `Property.findById`. -/
def findProp (props : List PropRec) (pid : String) : Option PropRec :=
  findBy PropRec.id props pid

/-- Filter part of the listing query parameters (`IQueryParams.filter` as read
by `PropertyService.getAllProperties`).  An absent field imposes no
constraint; this also covers the JavaScript-falsy values that the code treats
as absent. -/
structure PropFilter where
  approvalStatus : Option VStatus := none
  propertyType : Option String := none
  propertyFor : Option String := none
  status : Option String := none
  minPrice : Option Int := none
  maxPrice : Option Int := none
  minBedrooms : Option Int := none
  minBathrooms : Option Int := none
  city : Option String := none
  state : Option String := none
deriving DecidableEq, Repr

/-- Test whether `hay` begins with `pat` (on character lists). -/
def charsBeginWith (pat hay : List Char) : Bool :=
  match pat, hay with
  | [], _ => true
  | _ :: _, [] => false
  | p :: ps, h :: hs => p == h && charsBeginWith ps hs

/-- Test whether `pat` occurs contiguously inside `hay`. -/
def charsContain (pat hay : List Char) : Bool :=
  match hay with
  | [] => pat.isEmpty
  | _ :: hs => charsBeginWith pat hay || charsContain pat hs

/-- Case-insensitive substring test, modelling the unanchored
`$regex: pat, $options: "i"` match used by the listing queries. -/
def containsCI (hay pat : String) : Bool :=
  charsContain (strToLower pat).data (strToLower hay).data

/-- Role-dependent approval-visibility condition built by
`PropertyService.getAllProperties`.  Top-tier viewers see the explicitly
filtered bucket, or pending plus approved when no bucket is requested; every
other viewer sees approved listings plus the pending or rejected listings
that pass the `{ agent: userId }` filter.  Mongoose strips filter keys whose
value is `undefined`, so for an anonymous viewer (absent `userId`, reached
through the optional-authentication path) the agent condition is dropped and
the branch matches every pending or rejected listing; for an authenticated
viewer it matches listings whose agent equals their id. -/
def approvalCondition (userRole userId : Option String) (f : PropFilter)
    (p : PropRec) : Bool :=
  if userRole == some "super_admin" then
    match f.approvalStatus with
    | some st => p.approvalStatus == st
    | none => p.approvalStatus == .pending || p.approvalStatus == .approved
  else
    p.approvalStatus == .approved ||
      ((match userId with
        | some uid => p.agent == uid
        | none => true) &&
        (p.approvalStatus == .pending || p.approvalStatus == .rejected))

/-- Search condition of `getAllProperties`: case-insensitive match on title,
description or location. -/
def searchCondition (search : Option String) (p : PropRec) : Bool :=
  match search with
  | none => true
  | some s => containsCI p.title s || containsCI p.description s || containsCI p.location s

/-- Remaining field filters of `getAllProperties` (property type, market
status, price and room bounds, and the city/state location regexes). -/
def fieldFilters (f : PropFilter) (p : PropRec) : Bool :=
  (match f.propertyType with | none => true | some t => p.propertyType == t) &&
  (match f.propertyFor with | none => true | some t => p.propertyFor == t) &&
  (match f.status with | none => true | some t => p.status == t) &&
  (match f.minPrice with | none => true | some v => v ≤ p.price) &&
  (match f.maxPrice with | none => true | some v => p.price ≤ v) &&
  (match f.minBedrooms with | none => true | some v => v ≤ p.bedrooms) &&
  (match f.minBathrooms with | none => true | some v => v ≤ p.bathrooms) &&
  (match f.city, f.state with
   | some c, some s => containsCI p.location c && containsCI p.location s
   | some c, none => containsCI p.location c
   | none, some s => containsCI p.location s
   | none, none => true)

/-- The single combined filter predicate that `getAllProperties` hands to both
`Property.find` and `Property.countDocuments`. -/
def matchesQuery (userRole userId : Option String) (search : Option String)
    (f : PropFilter) (p : PropRec) : Bool :=
  approvalCondition userRole userId f p && searchCondition search p && fieldFilters f p

/-- Result shape of `getAllProperties`. -/
structure PropPage where
  properties : List PropRec
  total : Nat
  pages : Nat
deriving DecidableEq, Repr

/-- Shallow embedding of `PropertyService.getAllProperties`: one combined
query predicate drives both the paginated listing
(`find(query).skip(skip).limit(limit)`) and the total
(`countDocuments(query)`); `pages = ceil(total / limit)`.  The sort step is a
permutation of the matched records and is not modelled (the store order is
kept). -/
def getAllProperties (props : List PropRec) (page limit : Nat)
    (search : Option String) (f : PropFilter) (userRole userId : Option String) :
    PropPage :=
  let matched := props.filter (matchesQuery userRole userId search f)
  let skip := (page - 1) * limit
  { properties := (matched.drop skip).take limit
    total := matched.length
    pages := (matched.length + limit - 1) / limit }

/-- Message thrown when a property id does not resolve. -/
def propNotFoundMsg : String := "Property not found"

/-- Message thrown by `approveProperty` / `rejectProperty` when the listing is
not pending (`AlreadyProcessed` for listings). -/
def propNotPendingMsg : String := "Property is not in pending status"

/-- Message thrown by `updateProperty` on an authorization failure. -/
def updateUnauthorizedMsg : String := "You are not authorized to update this property"

/-- Message thrown by `deleteProperty` on an authorization failure. -/
def deleteUnauthorizedMsg : String := "You are not authorized to delete this property"

/-- Shallow embedding of `PropertyService.updateProperty`: fetch, check that
the actor is the listing's agent or holds the `super_admin` role, then apply
the `$set` patch.  The partial update document is modelled as a patch
function. -/
def updateProperty (props : List PropRec) (propertyId : String)
    (patch : PropRec → PropRec) (userId userRole : String) :
    Except String PropRec × List PropRec :=
  match findProp props propertyId with
  | none => (.error propNotFoundMsg, props)
  | some property =>
    let canUpdate := property.agent == userId || (["super_admin"].contains userRole)
    if !canUpdate then
      (.error updateUnauthorizedMsg, props)
    else
      (.ok (patch property), updateBy PropRec.id props propertyId patch)

/-- Shallow embedding of `PropertyService.deleteProperty`: fetch, check that
the actor is the listing's agent or holds the `admin` or `super_admin` role,
then `findByIdAndDelete`. -/
def deleteProperty (props : List PropRec) (propertyId : String)
    (userId userRole : String) : Except String Unit × List PropRec :=
  match findProp props propertyId with
  | none => (.error propNotFoundMsg, props)
  | some property =>
    let canDelete := property.agent == userId || (["admin", "super_admin"].contains userRole)
    if !canDelete then
      (.error deleteUnauthorizedMsg, props)
    else
      (.ok (), props.filter (fun p => p.id != propertyId))

/-- Patch applied by the property approve transition (it clears any previously
stored rejection reason). -/
def propApprovePatch (adminId : String) (now : Nat) (p : PropRec) : PropRec :=
  { p with
    approvalStatus := .approved
    approvedBy := some adminId
    approvedAt := some now
    rejectionReason := none }

/-- Shallow embedding of `PropertyService.approveProperty`: fetch, fail if
absent or not pending, otherwise set the approval fields and save. -/
def approveProperty (props : List PropRec) (propertyId adminId : String)
    (now : Nat) : Except String PropRec × List PropRec :=
  match findProp props propertyId with
  | none => (.error propNotFoundMsg, props)
  | some property =>
    if property.approvalStatus ≠ .pending then
      (.error propNotPendingMsg, props)
    else
      (.ok (propApprovePatch adminId now property),
        updateBy PropRec.id props propertyId (propApprovePatch adminId now))

/-- Patch applied by the property reject transition. -/
def propRejectPatch (adminId : String) (rejectionReason : String) (now : Nat)
    (p : PropRec) : PropRec :=
  { p with
    approvalStatus := .rejected
    approvedBy := some adminId
    approvedAt := some now
    rejectionReason := some rejectionReason }

/-- Shallow embedding of `PropertyService.rejectProperty`. -/
def rejectProperty (props : List PropRec) (propertyId adminId : String)
    (rejectionReason : String) (now : Nat) : Except String PropRec × List PropRec :=
  match findProp props propertyId with
  | none => (.error propNotFoundMsg, props)
  | some property =>
    if property.approvalStatus ≠ .pending then
      (.error propNotPendingMsg, props)
    else
      (.ok (propRejectPatch adminId rejectionReason now property),
        updateBy PropRec.id props propertyId (propRejectPatch adminId rejectionReason now))

/-- Error entry collected by the bulk property operations:
`{ propertyId, error }`. -/
structure PBulkErr where
  propertyId : String
  error : String
deriving DecidableEq, Repr

/-- Shallow embedding of `PropertyService.bulkApproveProperties`: ids are
processed sequentially in input order through `approveProperty`, per-item
failures are collected; the code returns `undefined` instead of an empty
error list, modelled by the `Option`. -/
def bulkApproveProperties (props : List PropRec) (propertyIds : List String)
    (adminId : String) (now : Nat) :
    List PropRec × List PBulkErr × List PropRec :=
  match propertyIds with
  | [] => ([], [], props)
  | propertyId :: rest =>
    match approveProperty props propertyId adminId now with
    | (.ok p, props1) =>
      let out := bulkApproveProperties props1 rest adminId now
      (p :: out.1, out.2.1, out.2.2)
    | (.error e, props1) =>
      let out := bulkApproveProperties props1 rest adminId now
      (out.1, ⟨propertyId, e⟩ :: out.2.1, out.2.2)

/-- Error field of the bulk property result as the controller sees it:
`errors.length > 0 ? errors : undefined`. -/
def bulkApprovePropertiesErrors (props : List PropRec) (propertyIds : List String)
    (adminId : String) (now : Nat) : Option (List PBulkErr) :=
  let errors := (bulkApproveProperties props propertyIds adminId now).2.1
  if errors.length > 0 then some errors else none

/-- Budget range subdocument of a lead (`estimatedBudget`). -/
structure Budget where
  min : Int
  max : Int
deriving DecidableEq, Repr

/-- Preferred-location subdocument of a lead (`preferredLocation`). -/
structure PrefLoc where
  city : Option String
  state : Option String
  zipCode : Option String
deriving DecidableEq, Repr

/-- Lead payload as `LeadController.createLead` receives it (`req.body` after
route validation): the fields read by `calculateLeadScore`, plus the
client-controlled `leadScore` field that the controller overwrites. -/
structure LeadInput where
  name : Option String
  phoneNumber : Option String
  email : Option String
  message : Option String
  estimatedBudget : Option Budget
  preferredLocation : Option PrefLoc
  propertyInterests : List String
  tags : List String
  leadScore : Option Nat
deriving DecidableEq, Repr

/-- JavaScript truthiness of an optional string field: absent and empty
strings are falsy. -/
def truthy (o : Option String) : Bool :=
  match o with
  | none => false
  | some s => !(s == "")

/-- Shallow embedding of `LeadService.calculateLeadScore`: a deterministic
additive heuristic over the lead's own fields, capped at 100.  Every branch
mirrors a truthiness test of the code. -/
def calculateLeadScore (lead : LeadInput) : Nat :=
  let s1 := if truthy lead.name then 10 else 0
  let s2 := if truthy lead.phoneNumber then 15 else 0
  let s3 := if truthy lead.email then 10 else 0
  let s4 :=
    match lead.message with
    | none => 0
    | some m =>
      if m == "" then 0
      else (if m.length > 50 then 10 else 0) + (if m.length > 100 then 5 else 0)
  let s5 :=
    match lead.estimatedBudget with
    | none => 0
    | some b => 15 + (if b.min > 0 then 5 else 0) + (if b.max > 0 then 5 else 0)
  let s6 :=
    match lead.preferredLocation with
    | none => 0
    | some l => 10 + (if truthy l.city then 5 else 0) + (if truthy l.state then 5 else 0)
  let s7 :=
    if lead.propertyInterests.length > 0 then lead.propertyInterests.length * 5 else 0
  let s8 := if lead.tags.length > 0 then lead.tags.length * 2 else 0
  Nat.min (s1 + s2 + s3 + s4 + s5 + s6 + s7 + s8) 100

/-- Stored lead record: the persisted fields relevant to creation. -/
structure LeadRec where
  name : Option String
  phoneNumber : Option String
  email : Option String
  message : Option String
  leadScore : Nat
deriving DecidableEq, Repr

/-- Shallow embedding of `LeadController.createLead` composed with
`LeadService.createLead`: the controller computes
`calculateLeadScore(req.body)` and overwrites `leadData.leadScore` with it
before the lead is persisted, so whatever `leadScore` the client sent is
discarded. -/
def createLeadEndpoint (leadData : LeadInput) : LeadRec :=
  { name := leadData.name
    phoneNumber := leadData.phoneNumber
    email := leadData.email
    message := leadData.message
    leadScore := calculateLeadScore leadData }

/-- Count of digit characters in a string, the length of
`value.replace(/\D/g, "")`. -/
def digitCount (s : String) : Nat :=
  (s.data.filter Char.isDigit).length

/-- Shallow embedding of the `validateLeadCreation` custom phone rule: the
value is trimmed, must be nonempty, and after stripping non-digits must have
10 digits or between 10 and 15 digits. -/
def routePhoneCheck (s : String) : Bool :=
  let v := strTrim s
  if v == "" then false
  else
    let cleaned := digitCount v
    cleaned == 10 || (10 ≤ cleaned && cleaned ≤ 15)

/-- Shallow embedding of the `leadSchema.phoneNumber` match pattern
`^[\+]?[1-9][\d]{0,15}$`: an optional leading plus sign, one digit in 1–9,
then at most 15 further digits, and nothing else. -/
def phoneRegexB (s : String) : Bool :=
  match s.data with
  | [] => false
  | c :: cs =>
    let body := if c == '+' then cs else c :: cs
    match body with
    | [] => false
    | d :: rest =>
      ('1' ≤ d && d ≤ '9') && rest.all Char.isDigit && rest.length ≤ 15

/-- Shallow embedding of the schema-side phone validation on save: the field
is required (an empty trimmed value is rejected) and the trimmed value must
match the pattern. -/
def schemaPhoneCheck (s : String) : Bool :=
  let v := strTrim s
  !(v == "") && phoneRegexB v

/-- Lead creation accepts a phone value exactly when both the route-level
custom validator and the Mongoose schema validator accept it: the route
validator runs first (`express-validator`), and `lead.save()` then runs the
schema validation. -/
def leadPhoneAccepted (s : String) : Bool :=
  routePhoneCheck s && schemaPhoneCheck s

/-- Single read step of `approveVerificationRequest`, the
`findById(requestId)` await. -/
def vreqRead (db : Db) (requestId : String) : Option VRequest :=
  findReq db.requests requestId

/-- Interleaved execution of two reviewers racing through
`approveVerificationRequest` on the same request with the schedule
`A.findById; B.findById; A.check+writes; B.check+writes`.  Each reviewer's
status check runs against the document that reviewer read, and the writes are
the unconditional `findByIdAndUpdate` calls of the code. -/
def approveRaceBothRead (db : Db) (requestId a b : String)
    (reviewNotes : Option String) (nowA nowB : Nat) :
    Except String VRequest × Except String VRequest × Db :=
  let ra := vreqRead db requestId
  let rb := vreqRead db requestId
  match ra with
  | none => (.error reqNotFoundMsg,
      match rb with
      | none => (.error reqNotFoundMsg, db)
      | some reqB =>
        if reqB.status ≠ .pending then (.error alreadyProcessedMsg, db)
        else (.ok (approvePatch b reviewNotes nowB reqB),
          approveApplyWrites db reqB b reviewNotes nowB))
  | some reqA =>
    if reqA.status ≠ .pending then
      (.error alreadyProcessedMsg,
        match rb with
        | none => (.error reqNotFoundMsg, db)
        | some reqB =>
          if reqB.status ≠ .pending then (.error alreadyProcessedMsg, db)
          else (.ok (approvePatch b reviewNotes nowB reqB),
            approveApplyWrites db reqB b reviewNotes nowB))
    else
      let db1 := approveApplyWrites db reqA a reviewNotes nowA
      (.ok (approvePatch a reviewNotes nowA reqA),
        match rb with
        | none => (.error reqNotFoundMsg, db1)
        | some reqB =>
          if reqB.status ≠ .pending then (.error alreadyProcessedMsg, db1)
          else (.ok (approvePatch b reviewNotes nowB reqB),
            approveApplyWrites db1 reqB b reviewNotes nowB))

/-- Modelled from the spec: the atomic conditional update
(update-where-status-equals-pending) that section 5 of the design requires for
the approve transition.  The whole check-and-update is one indivisible step,
so two racing reviewers serialize: the race is the sequential composition of
the two calls. -/
def casApproveRace (db : Db) (requestId a b : String)
    (reviewNotes : Option String) (nowA nowB : Nat) :
    Except String VRequest × Except String VRequest × Db :=
  let outA := approveVerificationRequest db requestId a reviewNotes nowA
  let outB := approveVerificationRequest outA.2 requestId b reviewNotes nowB
  (outA.1, outB.1, outB.2)

/-! Concrete fixtures used by the witness theorems below. -/

/-- Sample user with a pending verification request. -/
def sampleUser : UserRec :=
  { id := "u1", email := "alice@example.com", verificationStatus := .pending
    isVerified := false, verifiedBy := none, verifiedAt := none, rejectionReason := none }

/-- Sample user whose request was already approved. -/
def sampleUser2 : UserRec :=
  { id := "u2", email := "bob@example.com", verificationStatus := .approved
    isVerified := true, verifiedBy := some "admin", verifiedAt := some 1
    rejectionReason := none }

/-- Sample pending verification request, linked to `sampleUser`. -/
def samplePendingReq : VRequest :=
  { id := "r1", userId := "u1", status := .pending, reviewedBy := none
    reviewedAt := none, reviewNotes := none, rejectionReason := none }

/-- Sample already-approved verification request, linked to `sampleUser2`. -/
def sampleProcessedReq : VRequest :=
  { id := "r2", userId := "u2", status := .approved, reviewedBy := some "admin"
    reviewedAt := some 1, reviewNotes := none, rejectionReason := none }

/-- Sample verification store. -/
def sampleDb : Db :=
  { users := [sampleUser, sampleUser2], requests := [samplePendingReq, sampleProcessedReq] }

/-- Sample pending listing owned by agent `agA`. -/
def sampleProp : PropRec :=
  { id := "p1", title := "Flat", description := "Nice flat", location := "Springfield"
    price := 100, propertyType := "apartment", propertyFor := "sale"
    bedrooms := 2, bathrooms := 1, status := "available", agent := "agA"
    approvalStatus := .pending, approvedBy := none, approvedAt := none
    rejectionReason := none }

/-- Sample approved listing owned by agent `agB`. -/
def sampleProp2 : PropRec :=
  { id := "p2", title := "House", description := "Big house", location := "Shelbyville"
    price := 300, propertyType := "house", propertyFor := "sale"
    bedrooms := 4, bathrooms := 2, status := "available", agent := "agB"
    approvalStatus := .approved, approvedBy := some "admin", approvedAt := some 1
    rejectionReason := none }

/-- Sample rejected listing owned by agent `agB`. -/
def sampleProp3 : PropRec :=
  { id := "p3", title := "Hut", description := "Small hut", location := "Springfield"
    price := 10, propertyType := "house", propertyFor := "rent"
    bedrooms := 1, bathrooms := 1, status := "available", agent := "agB"
    approvalStatus := .rejected, approvedBy := some "admin", approvedAt := some 1
    rejectionReason := some "too small" }

/-- Sample listing store. -/
def sampleProps : List PropRec := [sampleProp, sampleProp2, sampleProp3]

/-! Store lemmas: how keyed lookup interacts with keyed patching. -/

theorem findBy_cons (key : α → String) (x : α) (l : List α) (k : String) :
    findBy key (x :: l) k = if key x == k then some x else findBy key l k := by
  by_cases h : key x == k
  · simp [findBy, List.find?_cons_of_pos, h]
  · simp only [Bool.not_eq_true] at h
    simp [findBy, List.find?_cons_of_neg, h]

theorem findBy_key_eq {key : α → String} {l : List α} {k : String} {x : α}
    (h : findBy key l k = some x) : key x = k := by
  have := List.find?_some h
  simpa using this

theorem updateBy_cons (key : α → String) (f : α → α) (x : α) (l : List α)
    (k : String) :
    updateBy key (x :: l) k f =
      (if key x == k then f x else x) :: updateBy key l k f := rfl

theorem findBy_updateBy_self (key : α → String) (f : α → α) (l : List α)
    (k : String) (hf : ∀ x, key (f x) = key x) :
    findBy key (updateBy key l k f) k = (findBy key l k).map f := by
  induction l with
  | nil => rfl
  | cons x xs ih =>
    rw [updateBy_cons]
    by_cases h : (key x == k) = true
    · rw [if_pos h, findBy_cons, findBy_cons]
      have hfx : (key (f x) == k) = true := by rw [hf x]; exact h
      rw [if_pos hfx, if_pos h]
      rfl
    · rw [if_neg h, findBy_cons, findBy_cons, if_neg h, if_neg h]
      exact ih

theorem findBy_updateBy_ne (key : α → String) (f : α → α) (l : List α)
    (k k' : String) (hf : ∀ x, key (f x) = key x) (hne : k' ≠ k) :
    findBy key (updateBy key l k f) k' = findBy key l k' := by
  induction l with
  | nil => rfl
  | cons x xs ih =>
    rw [updateBy_cons]
    by_cases h : (key x == k) = true
    · have hk : key x = k := by simpa using h
      have hfx : ¬ ((key (f x) == k') = true) := by
        rw [hf x, hk]
        simp only [beq_iff_eq]
        exact fun e => hne e.symm
      have hx : ¬ ((key x == k') = true) := by
        rw [hk]
        simp only [beq_iff_eq]
        exact fun e => hne e.symm
      rw [if_pos h, findBy_cons, if_neg hfx, findBy_cons, if_neg hx]
      exact ih
    · rw [if_neg h, findBy_cons, findBy_cons]
      by_cases hx : (key x == k') = true
      · rw [if_pos hx, if_pos hx]
      · rw [if_neg hx, if_neg hx]
        exact ih

theorem findBy_updateBy_none (key : α → String) (f : α → α) (l : List α)
    (k k' : String) (hf : ∀ x, key (f x) = key x)
    (h : findBy key l k' = none) :
    findBy key (updateBy key l k f) k' = none := by
  by_cases hk : k' = k
  · subst hk
    rw [findBy_updateBy_self key f l k' hf, h]
    rfl
  · rw [findBy_updateBy_ne key f l k k' hf hk, h]

/-! Lookup state after the single approve and reject transitions. -/

theorem approvePatch_id (reviewer : String) (notes : Option String) (now : Nat)
    (r : VRequest) : (approvePatch reviewer notes now r).id = r.id := rfl

theorem rejectPatch_id (reviewer reason : String) (notes : Option String)
    (now : Nat) (r : VRequest) :
    (rejectPatch reviewer reason notes now r).id = r.id := rfl

theorem approve_of_pending {db : Db} {rid : String} {r : VRequest}
    (reviewer : String) (notes : Option String) (now : Nat)
    (h : findReq db.requests rid = some r) (hp : r.status = .pending) :
    approveVerificationRequest db rid reviewer notes now =
      (.ok (approvePatch reviewer notes now r),
        approveApplyWrites db r reviewer notes now) := by
  simp [approveVerificationRequest, h, hp]

theorem reject_of_pending {db : Db} {rid : String} {r : VRequest}
    (reviewer reason : String) (notes : Option String) (now : Nat)
    (h : findReq db.requests rid = some r) (hp : r.status = .pending) :
    (rejectVerificationRequest db rid reviewer reason notes now).1 =
      .ok (rejectPatch reviewer reason notes now r) := by
  simp [rejectVerificationRequest, h, hp]

theorem approve_of_nonpending {db : Db} {rid : String} {r : VRequest}
    (reviewer : String) (notes : Option String) (now : Nat)
    (h : findReq db.requests rid = some r) (hp : r.status ≠ .pending) :
    approveVerificationRequest db rid reviewer notes now =
      (.error alreadyProcessedMsg, db) := by
  simp [approveVerificationRequest, h, hp]

theorem reject_of_nonpending {db : Db} {rid : String} {r : VRequest}
    (reviewer reason : String) (notes : Option String) (now : Nat)
    (h : findReq db.requests rid = some r) (hp : r.status ≠ .pending) :
    rejectVerificationRequest db rid reviewer reason notes now =
      (.error alreadyProcessedMsg, db) := by
  simp [rejectVerificationRequest, h, hp]

theorem findReq_after_approve {db : Db} {rid : String} {r : VRequest}
    (reviewer : String) (notes : Option String) (now : Nat)
    (h : findReq db.requests rid = some r) (hp : r.status = .pending) :
    findReq ((approveVerificationRequest db rid reviewer notes now).2).requests rid =
      some (approvePatch reviewer notes now r) := by
  rw [approve_of_pending reviewer notes now h hp]
  have hid : r.id = rid := findBy_key_eq h
  show findBy VRequest.id
    (updateBy VRequest.id db.requests r.id (approvePatch reviewer notes now)) rid = _
  rw [hid]
  rw [findBy_updateBy_self VRequest.id (approvePatch reviewer notes now)
    db.requests rid (fun x => rfl)]
  rw [show findBy VRequest.id db.requests rid = some r from h]
  rfl

theorem findReq_after_reject {db : Db} {rid : String} {r : VRequest}
    (reviewer reason : String) (notes : Option String) (now : Nat)
    (h : findReq db.requests rid = some r) (hp : r.status = .pending) :
    findReq ((rejectVerificationRequest db rid reviewer reason notes now).2).requests rid =
      some (rejectPatch reviewer reason notes now r) := by
  have hid : r.id = rid := findBy_key_eq h
  simp only [rejectVerificationRequest, h, hp]
  simp only [ne_eq, not_true_eq_false, if_false, reduceIte]
  show findBy VRequest.id
    (updateBy VRequest.id db.requests r.id (rejectPatch reviewer reason notes now)) rid = _
  rw [hid]
  rw [findBy_updateBy_self VRequest.id (rejectPatch reviewer reason notes now)
    db.requests rid (fun x => rfl)]
  rw [show findBy VRequest.id db.requests rid = some r from h]
  rfl

theorem propApprove_of_pending {props : List PropRec} {pid : String} {p : PropRec}
    (adminId : String) (now : Nat)
    (h : findProp props pid = some p) (hp : p.approvalStatus = .pending) :
    approveProperty props pid adminId now =
      (.ok (propApprovePatch adminId now p),
        updateBy PropRec.id props pid (propApprovePatch adminId now)) := by
  simp [approveProperty, h, hp]

theorem propApprove_of_nonpending {props : List PropRec} {pid : String} {p : PropRec}
    (adminId : String) (now : Nat)
    (h : findProp props pid = some p) (hp : p.approvalStatus ≠ .pending) :
    approveProperty props pid adminId now = (.error propNotPendingMsg, props) := by
  simp [approveProperty, h, hp]

theorem propReject_of_pending {props : List PropRec} {pid : String} {p : PropRec}
    (adminId reason : String) (now : Nat)
    (h : findProp props pid = some p) (hp : p.approvalStatus = .pending) :
    rejectProperty props pid adminId reason now =
      (.ok (propRejectPatch adminId reason now p),
        updateBy PropRec.id props pid (propRejectPatch adminId reason now)) := by
  simp [rejectProperty, h, hp]

theorem propReject_of_nonpending {props : List PropRec} {pid : String} {p : PropRec}
    (adminId reason : String) (now : Nat)
    (h : findProp props pid = some p) (hp : p.approvalStatus ≠ .pending) :
    rejectProperty props pid adminId reason now = (.error propNotPendingMsg, props) := by
  simp [rejectProperty, h, hp]

theorem findProp_after_propApprove {props : List PropRec} {pid : String} {p : PropRec}
    (adminId : String) (now : Nat)
    (h : findProp props pid = some p) (hp : p.approvalStatus = .pending) :
    findProp (approveProperty props pid adminId now).2 pid =
      some (propApprovePatch adminId now p) := by
  rw [propApprove_of_pending adminId now h hp]
  show findBy PropRec.id (updateBy PropRec.id props pid (propApprovePatch adminId now)) pid = _
  rw [findBy_updateBy_self PropRec.id (propApprovePatch adminId now) props pid (fun x => rfl)]
  rw [show findBy PropRec.id props pid = some p from h]
  rfl

theorem findProp_after_propReject {props : List PropRec} {pid : String} {p : PropRec}
    (adminId reason : String) (now : Nat)
    (h : findProp props pid = some p) (hp : p.approvalStatus = .pending) :
    findProp (rejectProperty props pid adminId reason now).2 pid =
      some (propRejectPatch adminId reason now p) := by
  rw [propReject_of_pending adminId reason now h hp]
  show findBy PropRec.id (updateBy PropRec.id props pid (propRejectPatch adminId reason now)) pid = _
  rw [findBy_updateBy_self PropRec.id (propRejectPatch adminId reason now) props pid (fun x => rfl)]
  rw [show findBy PropRec.id props pid = some p from h]
  rfl

/-- Claim C1.  For every verification request (and analogously every property
listing) whose status is not pending, both approve and reject fail with the
AlreadyProcessed error and return the store unchanged; for every pending
request a first approve or reject succeeds, and after either first transition
any second approve or reject on the same request fails with AlreadyProcessed
and leaves the store as the first transition left it, regardless of which
transition came first.
-/
theorem verification_and_property_transitions_fire_once
    (db : Db) (props : List PropRec) (rid pid reviewer reviewer2 reason : String)
    (notes notes2 : Option String) (now now2 : Nat) :
    (∀ r, findReq db.requests rid = some r → r.status ≠ .pending →
      approveVerificationRequest db rid reviewer notes now = (.error alreadyProcessedMsg, db) ∧
      rejectVerificationRequest db rid reviewer reason notes now = (.error alreadyProcessedMsg, db)) ∧
    (∀ r, findReq db.requests rid = some r → r.status = .pending →
      (∃ v, (approveVerificationRequest db rid reviewer notes now).1 = .ok v) ∧
      (∃ v, (rejectVerificationRequest db rid reviewer reason notes now).1 = .ok v) ∧
      (∀ db1,
        (db1 = (approveVerificationRequest db rid reviewer notes now).2 ∨
         db1 = (rejectVerificationRequest db rid reviewer reason notes now).2) →
        approveVerificationRequest db1 rid reviewer2 notes2 now2 =
          (.error alreadyProcessedMsg, db1) ∧
        rejectVerificationRequest db1 rid reviewer2 reason notes2 now2 =
          (.error alreadyProcessedMsg, db1))) ∧
    (∀ p, findProp props pid = some p → p.approvalStatus ≠ .pending →
      approveProperty props pid reviewer now = (.error propNotPendingMsg, props) ∧
      rejectProperty props pid reviewer reason now = (.error propNotPendingMsg, props)) ∧
    (∀ p, findProp props pid = some p → p.approvalStatus = .pending →
      (∃ v, (approveProperty props pid reviewer now).1 = .ok v) ∧
      (∃ v, (rejectProperty props pid reviewer reason now).1 = .ok v) ∧
      (∀ props1,
        (props1 = (approveProperty props pid reviewer now).2 ∨
         props1 = (rejectProperty props pid reviewer reason now).2) →
        approveProperty props1 pid reviewer2 now2 = (.error propNotPendingMsg, props1) ∧
        rejectProperty props1 pid reviewer2 reason now2 = (.error propNotPendingMsg, props1))) := by
  refine ⟨?_, ?_, ?_, ?_⟩
  · intro r h hs
    exact ⟨approve_of_nonpending reviewer notes now h hs,
      reject_of_nonpending reviewer reason notes now h hs⟩
  · intro r h hs
    refine ⟨⟨approvePatch reviewer notes now r, by rw [approve_of_pending reviewer notes now h hs]⟩,
      ⟨rejectPatch reviewer reason notes now r, reject_of_pending reviewer reason notes now h hs⟩,
      ?_⟩
    intro db1 hdb1
    rcases hdb1 with h1 | h1
    · have hfind : findReq db1.requests rid = some (approvePatch reviewer notes now r) := by
        rw [h1]; exact findReq_after_approve reviewer notes now h hs
      have hstat : (approvePatch reviewer notes now r).status ≠ .pending := by
        simp [approvePatch]
      exact ⟨approve_of_nonpending reviewer2 notes2 now2 hfind hstat,
        reject_of_nonpending reviewer2 reason notes2 now2 hfind hstat⟩
    · have hfind : findReq db1.requests rid = some (rejectPatch reviewer reason notes now r) := by
        rw [h1]; exact findReq_after_reject reviewer reason notes now h hs
      have hstat : (rejectPatch reviewer reason notes now r).status ≠ .pending := by
        simp [rejectPatch]
      exact ⟨approve_of_nonpending reviewer2 notes2 now2 hfind hstat,
        reject_of_nonpending reviewer2 reason notes2 now2 hfind hstat⟩
  · intro p h hs
    exact ⟨propApprove_of_nonpending reviewer now h hs,
      propReject_of_nonpending reviewer reason now h hs⟩
  · intro p h hs
    refine ⟨⟨propApprovePatch reviewer now p, by rw [propApprove_of_pending reviewer now h hs]⟩,
      ⟨propRejectPatch reviewer reason now p, by rw [propReject_of_pending reviewer reason now h hs]⟩,
      ?_⟩
    intro props1 hprops1
    rcases hprops1 with h1 | h1
    · have hfind : findProp props1 pid = some (propApprovePatch reviewer now p) := by
        rw [h1]; exact findProp_after_propApprove reviewer now h hs
      have hstat : (propApprovePatch reviewer now p).approvalStatus ≠ .pending := by
        simp [propApprovePatch]
      exact ⟨propApprove_of_nonpending reviewer2 now2 hfind hstat,
        propReject_of_nonpending reviewer2 reason now2 hfind hstat⟩
    · have hfind : findProp props1 pid = some (propRejectPatch reviewer reason now p) := by
        rw [h1]; exact findProp_after_propReject reviewer reason now h hs
      have hstat : (propRejectPatch reviewer reason now p).approvalStatus ≠ .pending := by
        simp [propRejectPatch]
      exact ⟨propApprove_of_nonpending reviewer2 now2 hfind hstat,
        propReject_of_nonpending reviewer2 reason now2 hfind hstat⟩

/-- Witness for claim C1 at the sample stores: approving the already-approved
request r2 fails and changes nothing; approving the pending request r1
succeeds, and a second approve of r1 after the first one fails with the
AlreadyProcessed message, leaving the store as the first approve left it. -/
theorem verification_and_property_transitions_fire_once_witness :
    approveVerificationRequest sampleDb "r2" "admin" none 5 =
      (.error alreadyProcessedMsg, sampleDb) ∧
    (∃ v, (approveVerificationRequest sampleDb "r1" "admin" none 5).1 = .ok v) ∧
    approveVerificationRequest
        (approveVerificationRequest sampleDb "r1" "admin" none 5).2 "r1" "admin2" none 6 =
      (.error alreadyProcessedMsg,
        (approveVerificationRequest sampleDb "r1" "admin" none 5).2) := by
  refine ⟨?_, ?_, ?_⟩
  · exact ((verification_and_property_transitions_fire_once sampleDb sampleProps
      "r2" "p1" "admin" "admin2" "rsn" none none 5 6).1 sampleProcessedReq
      (by decide) (by decide)).1
  · exact ((verification_and_property_transitions_fire_once sampleDb sampleProps
      "r1" "p1" "admin" "admin2" "rsn" none none 5 6).2.1 samplePendingReq
      (by decide) (by decide)).1
  · exact (((verification_and_property_transitions_fire_once sampleDb sampleProps
      "r1" "p1" "admin" "admin2" "rsn" none none 5 6).2.1 samplePendingReq
      (by decide) (by decide)).2.2
      ((approveVerificationRequest sampleDb "r1" "admin" none 5).2) (Or.inl rfl)).1

/-- Claim C3.  Every successful approve of a pending verification request leaves
the linked identity with verificationStatus approved, isVerified true,
verifiedBy the reviewer and verifiedAt set; every successful reject leaves it
with verificationStatus rejected, isVerified false and the given rejection
reason copied onto the identity record.
-/
theorem linked_identity_reflects_review_outcome
    (db : Db) (rid reviewer reason : String) (notes : Option String) (now : Nat)
    (r : VRequest) (u : UserRec)
    (hreq : findReq db.requests rid = some r) (hp : r.status = .pending)
    (huser : findUser db.users r.userId = some u) :
    (∃ u1, findUser ((approveVerificationRequest db rid reviewer notes now).2).users r.userId =
        some u1 ∧
      u1.verificationStatus = .approved ∧ u1.isVerified = true ∧
      u1.verifiedBy = some reviewer ∧ u1.verifiedAt = some now) ∧
    (∃ u2, findUser ((rejectVerificationRequest db rid reviewer reason notes now).2).users r.userId =
        some u2 ∧
      u2.verificationStatus = .rejected ∧ u2.isVerified = false ∧
      u2.rejectionReason = some reason) := by
  constructor
  · rw [approve_of_pending reviewer notes now hreq hp]
    have hfind : findBy UserRec.id
        (updateBy UserRec.id db.users r.userId (fun u =>
          { u with
            verificationStatus := .approved
            isVerified := true
            verifiedBy := some reviewer
            verifiedAt := some now })) r.userId =
        some { u with
          verificationStatus := .approved
          isVerified := true
          verifiedBy := some reviewer
          verifiedAt := some now } := by
      rw [findBy_updateBy_self UserRec.id (fun u =>
        { u with
          verificationStatus := .approved
          isVerified := true
          verifiedBy := some reviewer
          verifiedAt := some now }) db.users r.userId (fun x => rfl)]
      rw [show findBy UserRec.id db.users r.userId = some u from huser]
      rfl
    exact ⟨_, hfind, rfl, rfl, rfl, rfl⟩
  · simp only [rejectVerificationRequest, hreq, hp]
    simp only [ne_eq, not_true_eq_false, reduceIte]
    have hfind : findBy UserRec.id
        (updateBy UserRec.id db.users r.userId (fun u =>
          { u with
            verificationStatus := .rejected
            isVerified := false
            verifiedBy := some reviewer
            verifiedAt := some now
            rejectionReason := some reason })) r.userId =
        some { u with
          verificationStatus := .rejected
          isVerified := false
          verifiedBy := some reviewer
          verifiedAt := some now
          rejectionReason := some reason } := by
      rw [findBy_updateBy_self UserRec.id (fun u =>
        { u with
          verificationStatus := .rejected
          isVerified := false
          verifiedBy := some reviewer
          verifiedAt := some now
          rejectionReason := some reason }) db.users r.userId (fun x => rfl)]
      rw [show findBy UserRec.id db.users r.userId = some u from huser]
      rfl
    exact ⟨_, hfind, rfl, rfl, rfl⟩

/-- Witness for claim C3 at the sample store: approving pending request r1
marks alice's identity approved and verified by the reviewer; rejecting it
marks the identity rejected with the reason copied. -/
theorem linked_identity_reflects_review_outcome_witness :
    (∃ u1, findUser ((approveVerificationRequest sampleDb "r1" "admin" none 5).2).users "u1" =
        some u1 ∧
      u1.verificationStatus = .approved ∧ u1.isVerified = true ∧
      u1.verifiedBy = some "admin" ∧ u1.verifiedAt = some 5) ∧
    (∃ u2, findUser ((rejectVerificationRequest sampleDb "r1" "admin" "bad papers" none 5).2).users "u1" =
        some u2 ∧
      u2.verificationStatus = .rejected ∧ u2.isVerified = false ∧
      u2.rejectionReason = some "bad papers") :=
  linked_identity_reflects_review_outcome sampleDb "r1" "admin" "bad papers" none 5
    samplePendingReq sampleUser (by decide) (by decide) (by decide)

/-- Claim C6.  For an existing listing, updateProperty succeeds exactly when the
actor is the listing's agent or a super_admin and otherwise fails with the
update-unauthorized error; deleteProperty succeeds exactly when the actor is
the agent, an admin or a super_admin and otherwise fails with the
delete-unauthorized error.  In particular an admin who is not the agent can
delete but not update the listing.
-/
theorem property_update_delete_authorization
    (props : List PropRec) (pid uid role : String) (patch : PropRec → PropRec)
    (p : PropRec) (h : findProp props pid = some p) :
    ((∃ v, (updateProperty props pid patch uid role).1 = .ok v) ↔
      (p.agent = uid ∨ role = "super_admin")) ∧
    (¬ (p.agent = uid ∨ role = "super_admin") →
      updateProperty props pid patch uid role = (.error updateUnauthorizedMsg, props)) ∧
    ((∃ v, (deleteProperty props pid uid role).1 = .ok v) ↔
      (p.agent = uid ∨ role = "admin" ∨ role = "super_admin")) ∧
    (¬ (p.agent = uid ∨ role = "admin" ∨ role = "super_admin") →
      deleteProperty props pid uid role = (.error deleteUnauthorizedMsg, props)) ∧
    (role = "admin" ∧ p.agent ≠ uid →
      (∃ v, (deleteProperty props pid uid role).1 = .ok v) ∧
      (updateProperty props pid patch uid role).1 = .error updateUnauthorizedMsg) := by
  by_cases h3 : role = "super_admin"
  · subst h3
    by_cases h1 : p.agent = uid <;>
      simp [updateProperty, deleteProperty, h, List.contains, h1]
  · by_cases h2 : role = "admin"
    · subst h2
      by_cases h1 : p.agent = uid <;>
        simp [updateProperty, deleteProperty, h, List.contains, h1, h3]
    · by_cases h1 : p.agent = uid <;>
        simp [updateProperty, deleteProperty, h, List.contains, h1, h2, h3]

/-- Witness for claim C6 at the sample store: an admin who is not the agent of
pending listing p1 can delete it but not update it, while its agent can
update it. -/
theorem property_update_delete_authorization_witness :
    ((∃ v, (deleteProperty sampleProps "p1" "someAdmin" "admin").1 = .ok v) ∧
      (updateProperty sampleProps "p1" id "someAdmin" "admin").1 =
        .error updateUnauthorizedMsg) ∧
    (∃ v, (updateProperty sampleProps "p1" id "agA" "user").1 = .ok v) := by
  constructor
  · exact (property_update_delete_authorization sampleProps "p1" "someAdmin" "admin"
      id sampleProp (by decide)).2.2.2.2 (by decide)
  · exact (property_update_delete_authorization sampleProps "p1" "agA" "user"
      id sampleProp (by decide)).1.mpr (Or.inl (by decide))

theorem string_eq_empty_of_length_eq_zero {m : String} (h : m.length = 0) :
    m = "" := by
  cases m with
  | mk data =>
    cases data with
    | nil => rfl
    | cons a as => simp [String.length] at h

theorem score_min_mono {a1 a2 b1 b2 c1 c2 d1 d2 e1 e2 f1 f2 g1 g2 i1 i2 : Nat}
    (ha : a1 ≤ a2) (hb : b1 ≤ b2) (hc : c1 ≤ c2) (hd : d1 ≤ d2) (he : e1 ≤ e2)
    (hf : f1 ≤ f2) (hg : g1 ≤ g2) (hi : i1 ≤ i2) :
    Nat.min (a1 + b1 + c1 + d1 + e1 + f1 + g1 + i1) 100 ≤
      Nat.min (a2 + b2 + c2 + d2 + e2 + f2 + g2 + i2) 100 := by
  apply min_le_min _ le_rfl
  omega

theorem msg_component_mono {m1 m2 : String} (h : m1.length ≤ m2.length) :
    (if m1 == "" then 0
     else (if m1.length > 50 then 10 else 0) + (if m1.length > 100 then 5 else 0)) ≤
    (if m2 == "" then 0
     else (if m2.length > 50 then 10 else 0) + (if m2.length > 100 then 5 else 0)) := by
  by_cases hm1 : m1 = ""
  · subst hm1
    simp only [beq_self_eq_true, if_true]
    exact Nat.zero_le _
  · have hm2 : ¬ m2 = "" := by
      intro he
      apply hm1
      apply string_eq_empty_of_length_eq_zero
      have h0 : m2.length = 0 := by rw [he]; rfl
      omega
    have e1 : (m1 == "") = false := by simp [hm1]
    have e2 : (m2 == "") = false := by simp [hm2]
    rw [e1, e2]
    simp only [Bool.false_eq_true, if_false]
    split_ifs <;> omega

/-- Claim C4.  Every computed lead score lies in [0,100]; the scoring function is
pure, depending only on the scoring-relevant fields (two inputs agreeing on
name, phone, email, message, budget, location, interests and tags score
equally, whatever their client-supplied leadScore field says); and adding any
positive signal — a name, a phone, an email, a longer message, a budget
range, a preferred location, an extra property interest or an extra tag —
while holding the other fields fixed never decreases the score.
-/
theorem lead_score_bounds_purity_monotonicity (l : LeadInput) :
    (0 ≤ calculateLeadScore l ∧ calculateLeadScore l ≤ 100) ∧
    (∀ l2 : LeadInput, l2.name = l.name → l2.phoneNumber = l.phoneNumber →
      l2.email = l.email → l2.message = l.message →
      l2.estimatedBudget = l.estimatedBudget →
      l2.preferredLocation = l.preferredLocation →
      l2.propertyInterests = l.propertyInterests → l2.tags = l.tags →
      calculateLeadScore l2 = calculateLeadScore l) ∧
    (∀ n, l.name = none →
      calculateLeadScore l ≤ calculateLeadScore { l with name := some n }) ∧
    (∀ s, l.phoneNumber = none →
      calculateLeadScore l ≤ calculateLeadScore { l with phoneNumber := some s }) ∧
    (∀ s, l.email = none →
      calculateLeadScore l ≤ calculateLeadScore { l with email := some s }) ∧
    (∀ m1 m2 : String, m1.length ≤ m2.length →
      calculateLeadScore { l with message := some m1 } ≤
        calculateLeadScore { l with message := some m2 }) ∧
    (∀ b, l.estimatedBudget = none →
      calculateLeadScore l ≤ calculateLeadScore { l with estimatedBudget := some b }) ∧
    (∀ loc, l.preferredLocation = none →
      calculateLeadScore l ≤ calculateLeadScore { l with preferredLocation := some loc }) ∧
    (∀ pi, calculateLeadScore l ≤
      calculateLeadScore { l with propertyInterests := pi :: l.propertyInterests }) ∧
    (∀ t, calculateLeadScore l ≤ calculateLeadScore { l with tags := t :: l.tags }) := by
  refine ⟨⟨Nat.zero_le _, ?_⟩, ?_, ?_, ?_, ?_, ?_, ?_, ?_, ?_, ?_⟩
  · exact Nat.min_le_right _ _
  · intro l2 h1 h2 h3 h4 h5 h6 h7 h8
    simp only [calculateLeadScore, h1, h2, h3, h4, h5, h6, h7, h8]
  · intro n hname
    show Nat.min _ 100 ≤ Nat.min _ 100
    refine score_min_mono ?_ le_rfl le_rfl le_rfl le_rfl le_rfl le_rfl le_rfl
    rw [hname]
    exact Nat.zero_le _
  · intro s hphone
    show Nat.min _ 100 ≤ Nat.min _ 100
    refine score_min_mono le_rfl ?_ le_rfl le_rfl le_rfl le_rfl le_rfl le_rfl
    rw [hphone]
    exact Nat.zero_le _
  · intro s hemail
    show Nat.min _ 100 ≤ Nat.min _ 100
    refine score_min_mono le_rfl le_rfl ?_ le_rfl le_rfl le_rfl le_rfl le_rfl
    rw [hemail]
    exact Nat.zero_le _
  · intro m1 m2 hlen
    show Nat.min _ 100 ≤ Nat.min _ 100
    exact score_min_mono le_rfl le_rfl le_rfl (msg_component_mono hlen)
      le_rfl le_rfl le_rfl le_rfl
  · intro b hbudget
    show Nat.min _ 100 ≤ Nat.min _ 100
    refine score_min_mono le_rfl le_rfl le_rfl le_rfl ?_ le_rfl le_rfl le_rfl
    rw [hbudget]
    exact Nat.zero_le _
  · intro loc hloc
    show Nat.min _ 100 ≤ Nat.min _ 100
    refine score_min_mono le_rfl le_rfl le_rfl le_rfl le_rfl ?_ le_rfl le_rfl
    rw [hloc]
    exact Nat.zero_le _
  · intro pi
    show Nat.min _ 100 ≤ Nat.min _ 100
    refine score_min_mono le_rfl le_rfl le_rfl le_rfl le_rfl le_rfl ?_ le_rfl
    simp only [List.length_cons]
    split_ifs <;> omega
  · intro t
    show Nat.min _ 100 ≤ Nat.min _ 100
    refine score_min_mono le_rfl le_rfl le_rfl le_rfl le_rfl le_rfl le_rfl ?_
    simp only [List.length_cons]
    split_ifs <;> omega

/-- Witness for claim C4 at the spec's concrete scenario: the Jane lead scores
at most 100, adding an email does not decrease its score, and a lead that
matches Jane field-by-field scores the same. -/
theorem lead_score_bounds_purity_monotonicity_witness :
    (calculateLeadScore
        ⟨some "Jane", some "5551234567", none, none, none, none, [], [], none⟩ ≤ 100) ∧
    (calculateLeadScore
        ⟨some "Jane", some "5551234567", none, none, none, none, [], [], none⟩ ≤
      calculateLeadScore
        ⟨some "Jane", some "5551234567", some "jane@example.com", none, none, none, [], [], none⟩) ∧
    (calculateLeadScore
        ⟨some "Jane", some "5551234567", none, none, none, none, [], [], some 99⟩ =
      calculateLeadScore
        ⟨some "Jane", some "5551234567", none, none, none, none, [], [], none⟩) := by
  refine ⟨?_, ?_, ?_⟩
  · exact (lead_score_bounds_purity_monotonicity
      ⟨some "Jane", some "5551234567", none, none, none, none, [], [], none⟩).1.2
  · exact (lead_score_bounds_purity_monotonicity
      ⟨some "Jane", some "5551234567", none, none, none, none, [], [], none⟩).2.2.2.2.1
      "jane@example.com" rfl
  · exact (lead_score_bounds_purity_monotonicity
      ⟨some "Jane", some "5551234567", none, none, none, none, [], [], none⟩).2.1
      ⟨some "Jane", some "5551234567", none, none, none, none, [], [], some 99⟩
      rfl rfl rfl rfl rfl rfl rfl rfl

/-- Claim C10.  The public createLead endpoint stores as leadScore exactly the
value of calculateLeadScore on the submitted fields: any client-supplied
leadScore is overwritten before the lead is persisted, so two creation
payloads differing only in the client-supplied leadScore yield the same
stored score.
-/
theorem stored_lead_score_ignores_client_score (leadData : LeadInput)
    (c1 c2 : Option Nat) :
    (createLeadEndpoint { leadData with leadScore := c1 }).leadScore =
      calculateLeadScore { leadData with leadScore := c1 } ∧
    (createLeadEndpoint { leadData with leadScore := c1 }).leadScore =
      (createLeadEndpoint { leadData with leadScore := c2 }).leadScore :=
  ⟨rfl, rfl⟩

/-- Claim C7, counterexample.  The phone value "555-123-4567" has exactly 10
digits after stripping non-digits — inside the claimed [10,15] window — yet
lead creation rejects it, because the Mongoose schema pattern
`^[\+]?[1-9][\d]{0,15}$` forbids the dashes.  So passing the digit-count
check is not sufficient for creation to succeed.
-/
theorem phone_digit_window_not_sufficient :
    digitCount (strTrim "555-123-4567") = 10 ∧
    routePhoneCheck "555-123-4567" = true ∧
    leadPhoneAccepted "555-123-4567" = false := by
  refine ⟨by decide, by decide, by decide⟩

/-- Claim C7, amended.  Lead creation accepts a phone value exactly when, after
trimming, the value matches the schema pattern (an optional leading plus,
then a first digit in 1–9, then only digits) and its digit count lies between
10 and 15 inclusive.  The route-level validator contributes the 10–15 digit
window; the schema pattern additionally forbids separator characters and a
leading zero.
-/
theorem lead_phone_validation_characterization (s : String) :
    leadPhoneAccepted s = true ↔
      (phoneRegexB (strTrim s) = true ∧
        10 ≤ digitCount (strTrim s) ∧ digitCount (strTrim s) ≤ 15) := by
  simp only [leadPhoneAccepted, routePhoneCheck, schemaPhoneCheck]
  by_cases hv : strTrim s = ""
  · rw [hv]
    simp [phoneRegexB]
  · have hvb : (strTrim s == "") = false := by simp [hv]
    rw [hvb]
    simp only [Bool.false_eq_true, if_false, Bool.not_false, Bool.true_and,
      Bool.and_eq_true, Bool.or_eq_true, beq_iff_eq, decide_eq_true_eq]
    constructor
    · rintro ⟨hcl, hreg⟩
      rcases hcl with hcl | hcl
      · exact ⟨hreg, by omega, by omega⟩
      · exact ⟨hreg, hcl.1, hcl.2⟩
    · rintro ⟨hreg, h1, h2⟩
      exact ⟨Or.inr ⟨h1, h2⟩, hreg⟩

/-- Claim C9.  The code implements approve as a read (`findById`) followed by a
pending check on the read document and an unconditional `findByIdAndUpdate`,
not as an atomic conditional write.  Interleaving two reviewers as
read/read/write/write on the same pending request r1 makes both approve calls
succeed, and the stored reviewer is the second writer B even though A's call
also reported success — contradicting the claimed exactly-one-succeeds
behavior.  Under the spec-mandated atomic conditional update the same race
serializes: A succeeds, B observes the AlreadyProcessed error, and the stored
reviewer is A.
-/
theorem approve_race_read_then_write_both_succeed :
    (approveRaceBothRead sampleDb "r1" "A" "B" none 1 2).1 =
      .ok (approvePatch "A" none 1 samplePendingReq) ∧
    (approveRaceBothRead sampleDb "r1" "A" "B" none 1 2).2.1 =
      .ok (approvePatch "B" none 2 samplePendingReq) ∧
    (findReq (approveRaceBothRead sampleDb "r1" "A" "B" none 1 2).2.2.requests "r1").map
        (fun r => r.reviewedBy) = some (some "B") ∧
    (casApproveRace sampleDb "r1" "A" "B" none 1 2).1 =
      .ok (approvePatch "A" none 1 samplePendingReq) ∧
    (casApproveRace sampleDb "r1" "A" "B" none 1 2).2.1 = .error alreadyProcessedMsg ∧
    (findReq (casApproveRace sampleDb "r1" "A" "B" none 1 2).2.2.requests "r1").map
        (fun r => r.reviewedBy) = some (some "A") := by
  refine ⟨rfl, rfl, by decide, rfl, rfl, by decide⟩

/-- Claim C8.  On a store whose emails are schema-lowercased, a registration
whose email case-insensitively equals an existing identity's email fails with
the DuplicateIdentity error and changes neither store; a registration with a
fresh email creates exactly one identity with verificationStatus pending and
isVerified false (email stored lowercased) together with one linked pending
verification request, and nothing else.
-/
theorem registration_duplicate_email_semantics
    (db : Db) (email newUserId newRequestId : String)
    (hlower : ∀ u ∈ db.users, strToLower u.email = u.email) :
    ((∃ u ∈ db.users, strToLower u.email = strToLower email) →
      registerUser db email newUserId newRequestId = (.error duplicateIdentityMsg, db)) ∧
    ((∀ u ∈ db.users, ¬ strToLower u.email = strToLower email) →
      ∃ db1, registerUser db email newUserId newRequestId = (.ok newUserId, db1) ∧
        db1.users = db.users ++
          [⟨newUserId, strToLower email, .pending, false, none, none, none⟩] ∧
        db1.requests = db.requests ++
          [⟨newRequestId, newUserId, .pending, none, none, none, none⟩]) := by
  constructor
  · rintro ⟨u, hu, he⟩
    have hpred : (u.email == strToLower email) = true := by
      rw [beq_iff_eq, ← hlower u hu]
      exact he
    have hsome : (db.users.find? (fun w => w.email == strToLower email)).isSome := by
      rw [List.find?_isSome]
      exact ⟨u, hu, hpred⟩
    cases hfind : db.users.find? (fun w => w.email == strToLower email) with
    | none => rw [hfind] at hsome; simp at hsome
    | some w => simp [registerUser, userFindByEmail, hfind]
  · intro hall
    have hnone : db.users.find? (fun w => w.email == strToLower email) = none := by
      rw [List.find?_eq_none]
      intro u hu
      rw [beq_iff_eq, ← hlower u hu]
      exact hall u hu
    refine ⟨{ users := db.users ++
                [⟨newUserId, strToLower email, .pending, false, none, none, none⟩],
              requests := db.requests ++
                [⟨newRequestId, newUserId, .pending, none, none, none, none⟩] },
      ?_, rfl, rfl⟩
    simp [registerUser, userFindByEmail, hnone, createVerificationRequest]

/-- Witness for claim C8 at the sample store: registering
"Alice@Example.COM" collides case-insensitively with the stored
"alice@example.com" and fails leaving the store unchanged, while registering
"carol@example.com" creates the pending identity and linked pending
request. -/
theorem registration_duplicate_email_semantics_witness :
    registerUser sampleDb "Alice@Example.COM" "u9" "r9" =
      (.error duplicateIdentityMsg, sampleDb) ∧
    (∃ db1, registerUser sampleDb "carol@example.com" "u9" "r9" = (.ok "u9", db1) ∧
      db1.users = sampleDb.users ++
        [⟨"u9", strToLower "carol@example.com", .pending, false, none, none, none⟩] ∧
      db1.requests = sampleDb.requests ++
        [⟨"r9", "u9", .pending, none, none, none, none⟩]) := by
  constructor
  · exact (registration_duplicate_email_semantics sampleDb "Alice@Example.COM"
      "u9" "r9" (by decide)).1 ⟨sampleUser, by decide, by decide⟩
  · exact (registration_duplicate_email_semantics sampleDb "carol@example.com"
      "u9" "r9" (by decide)).2 (by decide)

theorem getAllProperties_full (props : List PropRec) (search : Option String)
    (f : PropFilter) (role uid : Option String) :
    (getAllProperties props 1 props.length search f role uid).properties =
      props.filter (matchesQuery role uid search f) := by
  show ((props.filter (matchesQuery role uid search f)).drop ((1 - 1) * props.length)).take
      props.length = _
  rw [show (1 - 1) * props.length = 0 from by omega, List.drop_zero]
  exact List.take_of_length_le (List.length_filter_le _ _)

/-- Claim C2, the code evaluated at the failing input.  The claim says an
anonymous viewer receives only approved listings, and a non-privileged viewer
never receives another agent's rejected listing.  Mongoose drops the
`{ agent: userId }` filter key when `userId` is undefined, so an
unauthenticated listing query (role and user id both absent, no filters) over
the sample store returns every listing: agA's pending listing p1 and agB's
rejected listing p3 are returned to the anonymous viewer alongside the
approved p2, violating the claimed visibility boundary.  An authenticated
non-privileged viewer is not affected: agent agA still does not receive p3.
-/
theorem anonymous_listing_query_returns_rejected :
    (getAllProperties sampleProps 1 sampleProps.length none {} none none).properties =
      [sampleProp, sampleProp2, sampleProp3] ∧
    sampleProp.approvalStatus = .pending ∧
    sampleProp3.approvalStatus = .rejected ∧
    sampleProp3.agent = "agB" ∧
    ¬ sampleProp3 ∈ (getAllProperties sampleProps 1 sampleProps.length none {}
        (some "user") (some "agA")).properties := by
  exact ⟨rfl, rfl, rfl, rfl, by decide⟩

/-! Lemmas on list filtering by equality with a fixed id. -/

theorem ite_cond_false {α : Sort u} {c : Bool} (h : c = false) (x y : α) :
    (if c = true then x else y) = y := by
  rw [h]
  rfl

theorem ite_cond_true {α : Sort u} {c : Bool} (h : c = true) (x y : α) :
    (if c = true then x else y) = x := by
  rw [h]
  rfl

theorem bne_self_eq_false (i : String) : (i != i) = false := by
  rw [bne, beq_self_eq_true]
  rfl

theorem bne_eq_true_of_ne {i m : String} (h : ¬ i = m) : (i != m) = true := by
  have hb : (i == m) = false := by simpa using h
  rw [bne, hb]
  rfl

theorem filter_beq_nil (m : String) :
    ∀ l : List String, m ∉ l → l.filter (fun i => i == m) = [] := by
  intro l
  induction l with
  | nil => intro _; rfl
  | cons a rest ih =>
    intro hm
    have ha : (a == m) = false :=
      beq_eq_false_iff_ne.mpr (fun he => hm (he ▸ List.mem_cons_self a rest))
    rw [List.filter_cons, ite_cond_false ha]
    exact ih (fun hmem => hm (List.mem_cons_of_mem a hmem))

theorem filter_beq_singleton (m : String) :
    ∀ l : List String, l.Nodup → m ∈ l → l.filter (fun i => i == m) = [m] := by
  intro l
  induction l with
  | nil => intro _ hm; cases hm
  | cons a rest ih =>
    intro hnd hm
    rcases List.mem_cons.mp hm with ha | ha
    · rw [List.filter_cons, ite_cond_true (show (a == m) = true by simp [ha])]
      rw [filter_beq_nil m rest (ha ▸ (List.nodup_cons.mp hnd).1), ha]
    · have hne : (a == m) = false :=
        beq_eq_false_iff_ne.mpr (fun he => (List.nodup_cons.mp hnd).1 (by rw [he]; exact ha))
      rw [List.filter_cons, ite_cond_false hne]
      exact ih (List.nodup_cons.mp hnd).2 ha

theorem length_filter_ne_add (m : String) :
    ∀ l : List String,
      (l.filter (fun i => i != m)).length + (l.filter (fun i => i == m)).length =
        l.length := by
  intro l
  induction l with
  | nil => rfl
  | cons a rest ih =>
    rw [List.filter_cons, List.filter_cons]
    by_cases ha : a = m
    · rw [ite_cond_false (show (a != m) = false by rw [ha]; exact bne_self_eq_false m)]
      rw [ite_cond_true (show (a == m) = true by simp [ha])]
      simp only [List.length_cons]
      omega
    · rw [ite_cond_true (bne_eq_true_of_ne ha)]
      rw [ite_cond_false (beq_eq_false_iff_ne.mpr ha)]
      simp only [List.length_cons]
      omega

/-- Run lemma for the verification bulk approve: over a store where `m` is
missing and every other listed id is a distinct pending request, the
successful results are exactly the non-`m` ids in input order and the error
list is exactly the `m` occurrences in input order. -/
theorem bulkApproveVerificationRequests_run (reviewedBy : String)
    (notes : Option String) (now : Nat) (m : String) :
    ∀ (ids : List String) (db : Db), ids.Nodup →
      findReq db.requests m = none →
      (∀ i ∈ ids, i ≠ m →
        ∃ r, findReq db.requests i = some r ∧ r.status = .pending) →
      (bulkApproveVerificationRequests db ids reviewedBy notes now).1.map VRequest.id =
          ids.filter (fun i => i != m) ∧
      (bulkApproveVerificationRequests db ids reviewedBy notes now).2.1 =
          (ids.filter (fun i => i == m)).map (fun i => ⟨i, reqNotFoundMsg⟩) := by
  intro ids
  induction ids with
  | nil => intro db _ _ _; exact ⟨rfl, rfl⟩
  | cons i rest ih =>
    intro db hnd hmiss hpend
    by_cases him : i = m
    · subst him
      have happ : approveVerificationRequest db i reviewedBy notes now =
          (.error reqNotFoundMsg, db) := by
        simp [approveVerificationRequest, hmiss]
      have hrec := ih db (List.nodup_cons.mp hnd).2 hmiss
        (fun j hj hjm => hpend j (List.mem_cons_of_mem i hj) hjm)
      have hbulk : bulkApproveVerificationRequests db (i :: rest) reviewedBy notes now =
          ((bulkApproveVerificationRequests db rest reviewedBy notes now).1,
            ⟨i, reqNotFoundMsg⟩ ::
              (bulkApproveVerificationRequests db rest reviewedBy notes now).2.1,
            (bulkApproveVerificationRequests db rest reviewedBy notes now).2.2) := by
        rw [bulkApproveVerificationRequests, happ]
      rw [hbulk]
      constructor
      · rw [List.filter_cons, ite_cond_false (bne_self_eq_false i)]
        exact hrec.1
      · rw [List.filter_cons, ite_cond_true (beq_self_eq_true i), List.map_cons]
        rw [hrec.2]
    · obtain ⟨r, hr, hpending⟩ := hpend i (List.mem_cons_self i rest) him
      have hid : r.id = i := findBy_key_eq hr
      have happ : approveVerificationRequest db i reviewedBy notes now =
          (.ok (approvePatch reviewedBy notes now r),
            approveApplyWrites db r reviewedBy notes now) :=
        approve_of_pending reviewedBy notes now hr hpending
      have hbulk : bulkApproveVerificationRequests db (i :: rest) reviewedBy notes now =
          (approvePatch reviewedBy notes now r ::
              (bulkApproveVerificationRequests
                (approveApplyWrites db r reviewedBy notes now) rest reviewedBy notes now).1,
            (bulkApproveVerificationRequests
              (approveApplyWrites db r reviewedBy notes now) rest reviewedBy notes now).2.1,
            (bulkApproveVerificationRequests
              (approveApplyWrites db r reviewedBy notes now) rest reviewedBy notes now).2.2) := by
        rw [bulkApproveVerificationRequests, happ]
      have hmiss1 :
          findReq (approveApplyWrites db r reviewedBy notes now).requests m = none := by
        show findBy VRequest.id
          (updateBy VRequest.id db.requests r.id (approvePatch reviewedBy notes now)) m = none
        exact findBy_updateBy_none VRequest.id (approvePatch reviewedBy notes now)
          db.requests r.id m (fun x => rfl) hmiss
      have hpend1 : ∀ j ∈ rest, j ≠ m →
          ∃ r2, findReq (approveApplyWrites db r reviewedBy notes now).requests j = some r2 ∧
            r2.status = .pending := by
        intro j hj hjm
        obtain ⟨r2, hr2, hp2⟩ := hpend j (List.mem_cons_of_mem i hj) hjm
        refine ⟨r2, ?_, hp2⟩
        have hji : j ≠ r.id := by
          rw [hid]
          intro he
          exact (List.nodup_cons.mp hnd).1 (he ▸ hj)
        show findBy VRequest.id
          (updateBy VRequest.id db.requests r.id (approvePatch reviewedBy notes now)) j = some r2
        rw [findBy_updateBy_ne VRequest.id (approvePatch reviewedBy notes now)
          db.requests r.id j (fun x => rfl) hji]
        exact hr2
      have hrec := ih (approveApplyWrites db r reviewedBy notes now)
        (List.nodup_cons.mp hnd).2 hmiss1 hpend1
      rw [hbulk]
      constructor
      · rw [List.filter_cons, ite_cond_true (bne_eq_true_of_ne him), List.map_cons]
        rw [hrec.1]
        congr 1
      · rw [List.filter_cons, ite_cond_false (beq_eq_false_iff_ne.mpr him)]
        exact hrec.2

/-- Run lemma for the property bulk approve, mirroring
`bulkApproveVerificationRequests_run`. -/
theorem bulkApproveProperties_run (adminId : String) (now : Nat) (m : String) :
    ∀ (pids : List String) (props : List PropRec), pids.Nodup →
      findProp props m = none →
      (∀ i ∈ pids, i ≠ m →
        ∃ p, findProp props i = some p ∧ p.approvalStatus = .pending) →
      (bulkApproveProperties props pids adminId now).1.map PropRec.id =
          pids.filter (fun i => i != m) ∧
      (bulkApproveProperties props pids adminId now).2.1 =
          (pids.filter (fun i => i == m)).map (fun i => ⟨i, propNotFoundMsg⟩) := by
  intro pids
  induction pids with
  | nil => intro props _ _ _; exact ⟨rfl, rfl⟩
  | cons i rest ih =>
    intro props hnd hmiss hpend
    by_cases him : i = m
    · subst him
      have happ : approveProperty props i adminId now = (.error propNotFoundMsg, props) := by
        simp [approveProperty, hmiss]
      have hrec := ih props (List.nodup_cons.mp hnd).2 hmiss
        (fun j hj hjm => hpend j (List.mem_cons_of_mem i hj) hjm)
      have hbulk : bulkApproveProperties props (i :: rest) adminId now =
          ((bulkApproveProperties props rest adminId now).1,
            ⟨i, propNotFoundMsg⟩ :: (bulkApproveProperties props rest adminId now).2.1,
            (bulkApproveProperties props rest adminId now).2.2) := by
        rw [bulkApproveProperties, happ]
      rw [hbulk]
      constructor
      · rw [List.filter_cons, ite_cond_false (bne_self_eq_false i)]
        exact hrec.1
      · rw [List.filter_cons, ite_cond_true (beq_self_eq_true i), List.map_cons]
        rw [hrec.2]
    · obtain ⟨p, hp, hpending⟩ := hpend i (List.mem_cons_self i rest) him
      have hid : p.id = i := findBy_key_eq hp
      have happ : approveProperty props i adminId now =
          (.ok (propApprovePatch adminId now p),
            updateBy PropRec.id props i (propApprovePatch adminId now)) :=
        propApprove_of_pending adminId now hp hpending
      have hbulk : bulkApproveProperties props (i :: rest) adminId now =
          (propApprovePatch adminId now p ::
              (bulkApproveProperties
                (updateBy PropRec.id props i (propApprovePatch adminId now)) rest adminId now).1,
            (bulkApproveProperties
              (updateBy PropRec.id props i (propApprovePatch adminId now)) rest adminId now).2.1,
            (bulkApproveProperties
              (updateBy PropRec.id props i (propApprovePatch adminId now)) rest adminId now).2.2) := by
        rw [bulkApproveProperties, happ]
      have hmiss1 :
          findProp (updateBy PropRec.id props i (propApprovePatch adminId now)) m = none :=
        findBy_updateBy_none PropRec.id (propApprovePatch adminId now)
          props i m (fun x => rfl) hmiss
      have hpend1 : ∀ j ∈ rest, j ≠ m →
          ∃ p2, findProp (updateBy PropRec.id props i (propApprovePatch adminId now)) j =
              some p2 ∧ p2.approvalStatus = .pending := by
        intro j hj hjm
        obtain ⟨p2, hp2, hq2⟩ := hpend j (List.mem_cons_of_mem i hj) hjm
        refine ⟨p2, ?_, hq2⟩
        have hji : j ≠ i := by
          intro he
          exact (List.nodup_cons.mp hnd).1 (he ▸ hj)
        show findBy PropRec.id
          (updateBy PropRec.id props i (propApprovePatch adminId now)) j = some p2
        rw [findBy_updateBy_ne PropRec.id (propApprovePatch adminId now)
          props i j (fun x => rfl) hji]
        exact hp2
      have hrec := ih (updateBy PropRec.id props i (propApprovePatch adminId now))
        (List.nodup_cons.mp hnd).2 hmiss1 hpend1
      rw [hbulk]
      constructor
      · rw [List.filter_cons, ite_cond_true (bne_eq_true_of_ne him), List.map_cons]
        rw [hrec.1]
        congr 1
      · rw [List.filter_cons, ite_cond_false (beq_eq_false_iff_ne.mpr him)]
        exact hrec.2

/-- Claim C5.  For a list of distinct target ids in which exactly one id is
missing from the store and all others are pending, bulkApprove (for
verification requests and for properties alike) returns N-1 successfully
processed records and exactly one error entry naming the missing id; the bulk
call itself returns normally, items are processed in input order (the
successful ids are the non-missing ids in input order), and the two returned
lists partition the input ids.
-/
theorem bulk_approve_partial_failure
    (db : Db) (props : List PropRec) (ids pids : List String)
    (m pm reviewer : String) (notes : Option String) (now : Nat)
    (hnd : ids.Nodup) (hm : m ∈ ids) (hmiss : findReq db.requests m = none)
    (hpend : ∀ i ∈ ids, i ≠ m →
      ∃ r, findReq db.requests i = some r ∧ r.status = .pending)
    (hnd2 : pids.Nodup) (hm2 : pm ∈ pids) (hmiss2 : findProp props pm = none)
    (hpend2 : ∀ i ∈ pids, i ≠ pm →
      ∃ p, findProp props i = some p ∧ p.approvalStatus = .pending) :
    ((bulkApproveVerificationRequests db ids reviewer notes now).1.length =
      ids.length - 1) ∧
    ((bulkApproveVerificationRequests db ids reviewer notes now).1.map VRequest.id =
      ids.filter (fun i => i != m)) ∧
    ((bulkApproveVerificationRequests db ids reviewer notes now).2.1 =
      [⟨m, reqNotFoundMsg⟩]) ∧
    (∀ i ∈ ids,
      (i ∈ (bulkApproveVerificationRequests db ids reviewer notes now).1.map VRequest.id ↔
        ¬ i = m) ∧
      (i ∈ (bulkApproveVerificationRequests db ids reviewer notes now).2.1.map
          VBulkErr.requestId ↔ i = m)) ∧
    ((bulkApproveProperties props pids reviewer now).1.length = pids.length - 1) ∧
    ((bulkApproveProperties props pids reviewer now).1.map PropRec.id =
      pids.filter (fun i => i != pm)) ∧
    ((bulkApproveProperties props pids reviewer now).2.1 = [⟨pm, propNotFoundMsg⟩]) ∧
    (bulkApprovePropertiesErrors props pids reviewer now = some [⟨pm, propNotFoundMsg⟩]) ∧
    (∀ i ∈ pids,
      (i ∈ (bulkApproveProperties props pids reviewer now).1.map PropRec.id ↔ ¬ i = pm) ∧
      (i ∈ (bulkApproveProperties props pids reviewer now).2.1.map PBulkErr.propertyId ↔
        i = pm)) := by
  obtain ⟨hmap, herr⟩ :=
    bulkApproveVerificationRequests_run reviewer notes now m ids db hnd hmiss hpend
  obtain ⟨hmap2, herr2⟩ :=
    bulkApproveProperties_run reviewer now pm pids props hnd2 hmiss2 hpend2
  have hsing : ids.filter (fun i => i == m) = [m] := filter_beq_singleton m ids hnd hm
  have hsing2 : pids.filter (fun i => i == pm) = [pm] :=
    filter_beq_singleton pm pids hnd2 hm2
  have herrs : (bulkApproveVerificationRequests db ids reviewer notes now).2.1 =
      [⟨m, reqNotFoundMsg⟩] := by rw [herr, hsing]; rfl
  have herrs2 : (bulkApproveProperties props pids reviewer now).2.1 =
      [⟨pm, propNotFoundMsg⟩] := by rw [herr2, hsing2]; rfl
  have hlen : (bulkApproveVerificationRequests db ids reviewer notes now).1.length =
      ids.length - 1 := by
    have h1 := congrArg List.length hmap
    rw [List.length_map] at h1
    have h2 := length_filter_ne_add m ids
    rw [hsing] at h2
    simp only [List.length_singleton] at h2
    omega
  have hlen2 : (bulkApproveProperties props pids reviewer now).1.length =
      pids.length - 1 := by
    have h1 := congrArg List.length hmap2
    rw [List.length_map] at h1
    have h2 := length_filter_ne_add pm pids
    rw [hsing2] at h2
    simp only [List.length_singleton] at h2
    omega
  refine ⟨hlen, hmap, herrs, ?_, hlen2, hmap2, herrs2, ?_, ?_⟩
  · intro i hi
    constructor
    · rw [hmap, List.mem_filter]
      constructor
      · rintro ⟨_, hne⟩
        intro he
        rw [he] at hne
        rw [bne_self_eq_false m] at hne
        cases hne
      · intro hne
        exact ⟨hi, bne_eq_true_of_ne hne⟩
    · rw [herrs]
      simp
  · show bulkApprovePropertiesErrors props pids reviewer now = _
    rw [bulkApprovePropertiesErrors]
    rw [herrs2]
    rfl
  · intro i hi
    constructor
    · rw [hmap2, List.mem_filter]
      constructor
      · rintro ⟨_, hne⟩
        intro he
        rw [he] at hne
        rw [bne_self_eq_false pm] at hne
        cases hne
      · intro hne
        exact ⟨hi, bne_eq_true_of_ne hne⟩
    · rw [herrs2]
      simp

/-- Witness for claim C5: approving ["r1", "rX"] on the sample verification
store (r1 pending, rX missing) yields one success and exactly the error entry
for rX; approving ["p1", "pX"] on the sample listing store behaves the same
and the controller-visible error field is the one-element list for pX. -/
theorem bulk_approve_partial_failure_witness :
    ((bulkApproveVerificationRequests sampleDb ["r1", "rX"] "admin" none 5).1.length = 1) ∧
    ((bulkApproveVerificationRequests sampleDb ["r1", "rX"] "admin" none 5).2.1 =
      [⟨"rX", reqNotFoundMsg⟩]) ∧
    ((bulkApproveProperties sampleProps ["p1", "pX"] "admin" 5).1.length = 1) ∧
    (bulkApprovePropertiesErrors sampleProps ["p1", "pX"] "admin" 5 =
      some [⟨"pX", propNotFoundMsg⟩]) := by
  have hout := bulk_approve_partial_failure sampleDb sampleProps
    ["r1", "rX"] ["p1", "pX"] "rX" "pX" "admin" none 5
    (by decide) (by decide) (by decide)
    (by
      intro i hi hne
      fin_cases hi
      · exact ⟨samplePendingReq, rfl, rfl⟩
      · exact absurd rfl hne)
    (by decide) (by decide) (by decide)
    (by
      intro i hi hne
      fin_cases hi
      · exact ⟨sampleProp, rfl, rfl⟩
      · exact absurd rfl hne)
  exact ⟨hout.1, hout.2.2.1, hout.2.2.2.2.1, hout.2.2.2.2.2.2.2.1⟩

end ASCap
